import Mathlib

/-!
# sinker: the `check` command

A shallow embedding of `internal/commands/check.go`: the tag filter
(`filterTags`), the newer-version selector (`getNewerVersions`) and the
orchestrating loop (`runCheckCommand`), followed by the properties proved
about them.

Go strings are embedded as Lean strings, Go slices as lists, a Go `error`
as `Option GoError` (`none` is `nil`).
-/

namespace Sinker

/-! ## Strings -/

/-- The call `strings.Contains(s, c)` for a one-character substring `c`. -/
def containsChar (s : String) (c : Char) : Bool :=
  s.toList.contains c

/-! ## The version library

`check.go` imports `github.com/hashicorp/go-version`; the library is not part
of the repository's sources. The selector uses three of its operations:
`NewVersion`, `LessThan` and `Original`. They are modelled below from the
specification's description of the version parser (§4.1). The general
theorems about the selector do not look inside the parser or the comparison;
only the concrete scenarios evaluate them.
-/

namespace version

/-- A parsed version: numeric segments, pre-release, build metadata and the
string it was parsed from. -/
structure Version where
  segments : List Nat
  pre : List (List Char)
  metadata : List (List Char)
  original : String
deriving DecidableEq, Repr

/-- Split a character list at every occurrence of `sep`. -/
def splitOn (sep : Char) : List Char → List (List Char)
  | [] => [[]]
  | c :: cs =>
    if c = sep then [] :: splitOn sep cs
    else
      match splitOn sep cs with
      | [] => [[c]]
      | h :: t => (c :: h) :: t

/-- Cut a character list at the first occurrence of `sep`: the part before
it and, when `sep` occurs, the part after it. -/
def cutAt (sep : Char) : List Char → List Char × Option (List Char)
  | [] => ([], none)
  | c :: cs =>
    if c = sep then ([], some cs)
    else ((c :: (cutAt sep cs).1), (cutAt sep cs).2)

/-- A decimal digit. -/
def isDigit (c : Char) : Bool :=
  decide ('0'.toNat ≤ c.toNat) && decide (c.toNat ≤ '9'.toNat)

/-- A character allowed in a pre-release or build identifier. -/
def isIdentChar (c : Char) : Bool :=
  isDigit c
    || (decide ('a'.toNat ≤ c.toNat) && decide (c.toNat ≤ 'z'.toNat))
    || (decide ('A'.toNat ≤ c.toNat) && decide (c.toNat ≤ 'Z'.toNat))
    || c = '-'

/-- The value of a string of decimal digits. -/
def digitsValue (ds : List Char) : Nat :=
  ds.foldl (fun acc c => acc * 10 + (c.toNat - '0'.toNat)) 0

/-- A non-empty string of decimal digits. -/
def isNumeric (ds : List Char) : Bool :=
  !ds.isEmpty && ds.all isDigit

/-- Dot-separated identifiers, each non-empty and made of identifier
characters. -/
def parseIdents (cs : List Char) : Option (List (List Char)) :=
  let ids := splitOn '.' cs
  if ids.all (fun i => !i.isEmpty && i.all isIdentChar) then some ids else none

/-- Pad a segment list with zeros up to three segments. -/
def padSegments (segs : List Nat) : List Nat :=
  segs ++ List.replicate (3 - segs.length) 0

/-- Modelled from the spec: `version.NewVersion` of the imported library
`hashicorp/go-version`, which is not under the repository sources. Following
§4.1 it accepts semantic-version-like strings: an optional leading `v`,
dot-separated decimal segments (padded to major.minor.patch), an optional
`-` pre-release and an optional `+` build metadata, and rejects everything
else. The parsed value remembers the string it came from. -/
def NewVersion (v : String) : Option Version :=
  let cs := match v.toList with
    | 'v' :: rest => rest
    | other => other
  let (body, metaPart) := cutAt '+' cs
  let (core, prePart) := cutAt '-' body
  let segs := splitOn '.' core
  if segs.all isNumeric then
    let pre? := match prePart with
      | none => some []
      | some p => parseIdents p
    let meta? := match metaPart with
      | none => some []
      | some m => parseIdents m
    match pre?, meta? with
    | some pre, some metadata =>
      some { segments := padSegments (segs.map digitsValue), pre := pre,
             metadata := metadata, original := v }
    | _, _ => none
  else none

/-- Numeric segments compared position by position; a missing segment counts
as zero. -/
def compareSegments : List Nat → List Nat → Ordering
  | [], bs => if bs.all (fun b => b == 0) then .eq else .lt
  | a :: as, [] => if (a :: as).all (fun x => x == 0) then .eq else .gt
  | a :: as, b :: bs =>
    if a < b then .lt else if b < a then .gt else compareSegments as bs

/-- Lexical (code point) order on identifiers. -/
def compareLex : List Char → List Char → Ordering
  | [], [] => .eq
  | [], _ :: _ => .lt
  | _ :: _, [] => .gt
  | a :: as, b :: bs =>
    if a.toNat < b.toNat then .lt
    else if b.toNat < a.toNat then .gt
    else compareLex as bs

/-- Precedence of two pre-release identifiers: numeric ones compare by value
and rank below alphanumeric ones, which compare lexically. -/
def compareIdent (a b : List Char) : Ordering :=
  if isNumeric a && isNumeric b then compare (digitsValue a) (digitsValue b)
  else if isNumeric a then .lt
  else if isNumeric b then .gt
  else compareLex a b

/-- Precedence of two non-empty pre-release identifier lists: the first
differing identifier decides; a proper prefix ranks lower. -/
def comparePrereleases : List (List Char) → List (List Char) → Ordering
  | [], [] => .eq
  | [], _ :: _ => .lt
  | _ :: _, [] => .gt
  | a :: as, b :: bs =>
    match compareIdent a b with
    | .eq => comparePrereleases as bs
    | o => o

/-- Modelled from the spec: `Version.Compare` of the imported library, the
semantic-versioning precedence of §4.1: major, then minor, then patch (then
any further segment), then the pre-release, where a version without
pre-release ranks above the same version with one. Build metadata is
ignored. -/
def Version.Compare (v other : Version) : Ordering :=
  match compareSegments v.segments other.segments with
  | .eq =>
    if v.pre.isEmpty && other.pre.isEmpty then .eq
    else if v.pre.isEmpty then .gt
    else if other.pre.isEmpty then .lt
    else comparePrereleases v.pre other.pre
  | o => o

/-- Modelled from the spec: `Version.LessThan` of the imported library:
`v` is strictly lower than `o`. -/
def Version.LessThan (v o : Version) : Bool :=
  v.Compare o == .lt

/-- Modelled from the spec: `Version.Original` of the imported library: the
string the version was parsed from, unnormalized. -/
def Version.Original (v : Version) : String :=
  v.original

end version

open version

/-! ## `filterTags` and `getNewerVersions` -/

/-- The function `filterTags` of `check.go`: the loop appends a tag when it
contains a `.` and does not contain a `-`. -/
def filterTags (tags : List String) : List String :=
  let rec loop (filteredTags : List String) : List String → List String
    | [] => filteredTags
    | tag :: rest =>
      if containsChar tag '.' && !containsChar tag '-' then
        loop (filteredTags ++ [tag]) rest
      else
        loop filteredTags rest
  loop [] tags

/-- A Go `error`: a leaf error of a collaborator, or an error wrapped by
`fmt.Errorf(context + ": %w", inner)`. -/
inductive GoError where
  | mk (msg : String)
  | wrap (context : String) (inner : GoError)
deriving DecidableEq, Repr

/-- The function `getNewerVersions` of `check.go`: the loop skips a tag that
does not parse and appends the original string of a tag that the current
version is lower than; a result longer than 5 is cut to its last 5 entries.
The error result is the `nil` of `return newerVersions, nil`. -/
def getNewerVersions (currentVersion : Version) (foundTags : List String) :
    List String × Option GoError :=
  let rec loop (newerVersions : List String) : List String → List String
    | [] => newerVersions
    | foundTag :: rest =>
      match NewVersion foundTag with
      | none => loop newerVersions rest
      | some tag =>
        if currentVersion.LessThan tag then
          loop (newerVersions ++ [tag.Original]) rest
        else
          loop newerVersions rest
  let newerVersions := loop [] foundTags
  let newerVersions :=
    if newerVersions.length > 5 then
      newerVersions.drop (newerVersions.length - 5)
    else newerVersions
  (newerVersions, none)

/-! ## `runCheckCommand` -/

/-- An image record of the manifest, with the three fields the command
reads. -/
structure Image where
  SourceRegistry : String
  Repository : String
  Version : String
deriving DecidableEq, Repr

/-- The manifest returned by `GetManifest`. -/
structure Manifest where
  Images : List Image
deriving DecidableEq, Repr

/-- The registry client built by `registry.New`: its `Tags` call lists the
tags of a repository or fails. -/
structure Registry where
  Tags : String → Except GoError (List String)

/-- The collaborators of the command, none of which is under the repository
sources: the result of `registry.New`, the result of `GetManifest`, and the
`Source()` method of an image, which renders its identity. -/
structure Env where
  registryNew : Except GoError Registry
  GetManifest : Except GoError Manifest
  Source : Image → String

/-- One `logger.Printf` call of `runCheckCommand`: which of the four format
strings, and its arguments. -/
inductive LogLine where
  | notSourced (source : String)
  | versionNotParsed (source : String)
  | upToDate (source : String)
  | newVersions (source : String) (newerVersions : List String)
deriving DecidableEq, Repr

/-- The text of a log line: the format string with `%s` and `%v` filled in
(a string slice prints as `[a b c]`). -/
def LogLine.render : LogLine → String
  | .notSourced source =>
    "Image " ++ source ++ " not sourced from docker.io. Skipping ..."
  | .versionNotParsed source =>
    "Image " ++ source ++ " version did not parse correctly. Skipping ..."
  | .upToDate source => "Image " ++ source ++ " is up to date!"
  | .newVersions source newerVersions =>
    "New versions for " ++ source ++ " found: [" ++
      " ".intercalate newerVersions ++ "]"

/-- What a run has done so far: the lines given to the logger and the
repositories whose tags were requested from the registry, both in order. -/
structure RunState where
  logs : List LogLine
  fetches : List String
deriving DecidableEq, Repr

/-- Append a line to the log. -/
def RunState.Printf (st : RunState) (line : LogLine) : RunState :=
  { logs := st.logs ++ [line], fetches := st.fetches }

/-- Record a `Tags` request. -/
def RunState.fetch (st : RunState) (repository : String) : RunState :=
  { logs := st.logs, fetches := st.fetches ++ [repository] }

/-- The body of the `for` loop of `runCheckCommand` for one image. The second
component is `none` when the iteration ends by `continue` or by reaching the
end of the body, and the returned error when it ends by `return`. -/
def forBody (env : Env) (dockerRegistry : Registry) (st : RunState)
    (image : Image) : RunState × Option GoError :=
  if image.SourceRegistry != "docker.io" then
    (st.Printf (.notSourced (env.Source image)), none)
  else
    match NewVersion image.Version with
    | none => (st.Printf (.versionNotParsed (env.Source image)), none)
    | some imageVersion =>
      let image :=
        if !containsChar image.Repository '/' then
          { image with Repository := "library/" ++ image.Repository }
        else image
      let st := st.fetch image.Repository
      match dockerRegistry.Tags image.Repository with
      | .error err => (st, some (.wrap "fetch tags" err))
      | .ok imageTags =>
        let imageTags := filterTags imageTags
        match getNewerVersions imageVersion imageTags with
        | (_, some err) => (st, some (.wrap "getting newer version" err))
        | (newerVersions, none) =>
          if newerVersions.length = 0 then
            (st.Printf (.upToDate (env.Source image)), none)
          else
            (st.Printf (.newVersions (env.Source image) newerVersions), none)

/-- The `for` loop of `runCheckCommand` over the images of the manifest: it
stops at the first iteration that returns an error. -/
def forImages (env : Env) (dockerRegistry : Registry) :
    List Image → RunState → RunState × Option GoError
  | [], st => (st, none)
  | image :: rest, st =>
    match forBody env dockerRegistry st image with
    | (st, none) => forImages env dockerRegistry rest st
    | (st, some err) => (st, some err)

/-- The function `runCheckCommand` of `check.go`: build the registry client,
load the manifest, then loop over the images. The result is what the run did
and the error it returned (`none` for `nil`). -/
def runCheckCommand (env : Env) : RunState × Option GoError :=
  match env.registryNew with
  | .error err => ({ logs := [], fetches := [] }, some (.wrap "new registry" err))
  | .ok dockerRegistry =>
    match env.GetManifest with
    | .error err =>
      ({ logs := [], fetches := [] }, some (.wrap "get manifest" err))
    | .ok manifest =>
      forImages env dockerRegistry manifest.Images { logs := [], fetches := [] }

/-! ## Vocabulary of the properties -/

/-- The policy of the tag filter in the specification's words: the tag
contains at least one `.` and contains no `-`. -/
def releaseLike (tag : String) : Prop :=
  '.' ∈ tag.toList ∧ '-' ∉ tag.toList

instance (tag : String) : Decidable (releaseLike tag) :=
  inferInstanceAs (Decidable ('.' ∈ tag.toList ∧ '-' ∉ tag.toList))

/-- A candidate qualifies against a baseline when it parses as a version and
the baseline is strictly lower than that version. -/
def qualifies (baseline : Version) (candidate : String) : Bool :=
  match NewVersion candidate with
  | some tag => baseline.LessThan tag
  | none => false

/-- The pre-truncation list of the selector: the qualifying candidates in
input order. -/
def qualifying (baseline : Version) (candidates : List String) : List String :=
  candidates.filter (qualifies baseline)

/-- The version of `a` is greater than the version of `b`: both parse and
`b` is strictly lower than `a`. -/
def versionGreater (a b : String) : Bool :=
  match NewVersion a, NewVersion b with
  | some va, some vb => vb.LessThan va
  | _, _ => false

/-- Ascending version order: no tag's version is greater than the version of
the tag that follows it. -/
def ascending (tags : List String) : Prop :=
  List.Chain' (fun a b => versionGreater a b = false) tags

/-- The baseline `1.0.0`. -/
def v1_0_0 : Version :=
  { segments := [1, 0, 0], pre := [], metadata := [], original := "1.0.0" }

/-- The baseline `1.2.0`. -/
def v1_2_0 : Version :=
  { segments := [1, 2, 0], pre := [], metadata := [], original := "1.2.0" }

/-- The repository name under which an image is looked up in the registry:
the default namespace `library/` is put before a repository without `/`. -/
def queriedRepository (image : Image) : String :=
  if containsChar image.Repository '/' then image.Repository
  else "library/" ++ image.Repository

/-- A registry that knows the tags of `library/nginx` and fails for every
other repository. -/
def sampleRegistry : Registry :=
  { Tags := fun repository =>
      if repository = "library/nginx" then .ok ["1.19.0", "1.20.0", "latest"]
      else .error (.mk "not found") }

/-- An identity rendering for the sample environment. -/
def sampleSource (image : Image) : String :=
  image.SourceRegistry ++ "/" ++ image.Repository ++ ":" ++ image.Version

/-- An environment whose registry client is `sampleRegistry` and whose
manifest holds the given images. -/
def sampleEnv (images : List Image) : Env :=
  { registryNew := .ok sampleRegistry,
    GetManifest := .ok { Images := images },
    Source := sampleSource }

/-- The image as the loop body holds it after the repository has been
normalized: the copy whose `Source()` the report lines print. -/
def normalizedImage (image : Image) : Image :=
  { image with Repository := queriedRepository image }

/-- The image reaches the tag fetch: it is sourced from `docker.io` and its
pinned version parses. -/
def reachesFetch (image : Image) : Bool :=
  image.SourceRegistry == "docker.io" && (NewVersion image.Version).isSome

/-- The log line is one of the lines the run may write for the image: the
source skip notice for an image of another registry, the version skip notice
for a docker.io image whose pinned version does not parse, and an up-to-date
or newer-versions notice for an image that reaches the tag fetch. -/
def lineFor (env : Env) (image : Image) (line : LogLine) : Prop :=
  (image.SourceRegistry ≠ "docker.io" ∧
      line = .notSourced (env.Source image)) ∨
    (image.SourceRegistry = "docker.io" ∧ NewVersion image.Version = none ∧
      line = .versionNotParsed (env.Source image)) ∨
    (reachesFetch image = true ∧
      (line = .upToDate (env.Source (normalizedImage image)) ∨
        ∃ newerVersions,
          line = .newVersions (env.Source (normalizedImage image)) newerVersions))

/-- The pinned version `1.19.0`. -/
def v1_19_0 : Version :=
  { segments := [1, 19, 0], pre := [], metadata := [], original := "1.19.0" }

/-- The image `docker.io/nginx:1.19.0`, without a namespace. -/
def nginxImage : Image :=
  { SourceRegistry := "docker.io", Repository := "nginx", Version := "1.19.0" }

/-- The image `docker.io/redis:6.0`, unknown to the sample registry. -/
def redisImage : Image :=
  { SourceRegistry := "docker.io", Repository := "redis", Version := "6.0" }

/-- An image hosted on `ghcr.io`. -/
def ghcrImage : Image :=
  { SourceRegistry := "ghcr.io", Repository := "a/b", Version := "1.0" }

/-- A docker.io image pinned to `latest`, which is not a version. -/
def latestImage : Image :=
  { SourceRegistry := "docker.io", Repository := "nginx", Version := "latest" }

/-- What the run over `ghcrImage`, `nginxImage`, `latestImage` has done when
it returns: three lines and one fetch. -/
def completedRun : RunState :=
  { logs := [.notSourced "ghcr.io/a/b:1.0",
             .newVersions "docker.io/library/nginx:1.19.0" ["1.20.0"],
             .versionNotParsed "docker.io/nginx:latest"],
    fetches := ["library/nginx"] }

/-- What the run over `ghcrImage`, `nginxImage`, `redisImage`, `nginxImage`
has done when the fetch for `redisImage` fails: two lines and two fetches. -/
def abortedRun : RunState :=
  { logs := [.notSourced "ghcr.io/a/b:1.0",
             .newVersions "docker.io/library/nginx:1.19.0" ["1.20.0"]],
    fetches := ["library/nginx", "library/redis"] }

/-! ## Lemmas on the two loops -/

theorem filterTags_loop_eq (acc tags : List String) :
    filterTags.loop acc tags =
      acc ++ tags.filter (fun t => containsChar t '.' && !containsChar t '-') := by
  induction tags generalizing acc with
  | nil => simp [filterTags.loop]
  | cons tag rest ih =>
    by_cases h : (containsChar tag '.' && !containsChar tag '-') = true
    · simp only [filterTags.loop, h, if_true, ih, List.filter_cons,
        List.append_assoc, List.singleton_append]
    · simp only [filterTags.loop, h, ih, List.filter_cons]
      simp

theorem NewVersion_original {s : String} {tag : Version}
    (h : NewVersion s = some tag) : tag.Original = s := by
  unfold NewVersion at h
  simp only at h
  split at h
  · split at h
    · simp only [Option.some.injEq] at h
      subst h
      rfl
    · exact absurd h (by simp)
  · exact absurd h (by simp)

theorem getNewerVersions_loop_eq (cur : Version) (acc tags : List String) :
    getNewerVersions.loop cur acc tags = acc ++ qualifying cur tags := by
  induction tags generalizing acc with
  | nil => simp [getNewerVersions.loop, qualifying]
  | cons foundTag rest ih =>
    unfold getNewerVersions.loop
    cases hp : NewVersion foundTag with
    | none =>
      simp only [ih]
      simp [qualifying, qualifies, hp]
    | some tag =>
      by_cases hlt : cur.LessThan tag = true
      · simp only [hlt, if_true, ih, NewVersion_original hp]
        simp [qualifying, qualifies, hp, hlt]
      · simp only [hlt, ih]
        simp [qualifying, qualifies, hp, hlt]

/-- The result list of the selector: the qualifying list, cut to its last 5
entries when it is longer than 5. -/
theorem getNewerVersions_fst (cur : Version) (tags : List String) :
    (getNewerVersions cur tags).1 =
      if (qualifying cur tags).length > 5 then
        (qualifying cur tags).drop ((qualifying cur tags).length - 5)
      else qualifying cur tags := by
  simp [getNewerVersions, getNewerVersions_loop_eq]

/-! ## The tag filter -/

/-- C1: `filterTags` returns exactly the tags that contain a `.` and no `-`,
in their original order and with duplicates kept: it is the list filter by
that predicate. The filter of the empty sequence is empty, and the tags
`1.0.0`, `latest`, `1.0.0-rc1`, `2.0` are filtered to `1.0.0`, `2.0`. -/
theorem filterTags_eq_filter :
    (∀ tags : List String,
        filterTags tags = tags.filter (fun t => decide (releaseLike t))) ∧
      filterTags [] = [] ∧
      filterTags ["1.0.0", "latest", "1.0.0-rc1", "2.0"] = ["1.0.0", "2.0"] := by
  refine ⟨fun tags => ?_, rfl, by decide⟩
  unfold filterTags
  rw [filterTags_loop_eq, List.nil_append]
  congr 1
  funext t
  simp [containsChar, releaseLike]

/-! ## The newer-version selector -/

/-- C2: when more than 5 candidates qualify, `getNewerVersions` returns
exactly the last 5 entries of the qualifying list, in their original order:
the result is the suffix of length 5 of that list. Baseline `1.0.0` with
candidates `1.1.0` to `1.6.0` yields `1.2.0` to `1.6.0`. -/
theorem getNewerVersions_last_five :
    (∀ (cur : Version) (tags : List String),
        (qualifying cur tags).length > 5 →
          (getNewerVersions cur tags).1 =
              (qualifying cur tags).drop ((qualifying cur tags).length - 5) ∧
            (getNewerVersions cur tags).1 <:+ qualifying cur tags ∧
            (getNewerVersions cur tags).1.length = 5) ∧
      NewVersion "1.0.0" = some v1_0_0 ∧
      getNewerVersions v1_0_0
          ["1.1.0", "1.2.0", "1.3.0", "1.4.0", "1.5.0", "1.6.0"] =
        (["1.2.0", "1.3.0", "1.4.0", "1.5.0", "1.6.0"], none) := by
  refine ⟨fun cur tags h => ?_, by decide, by decide⟩
  rw [getNewerVersions_fst, if_pos h]
  refine ⟨rfl, List.drop_suffix _ _, ?_⟩
  rw [List.length_drop]
  omega

/-- C2 at baseline `1.0.0` with six qualifying candidates: five are returned. -/
theorem getNewerVersions_last_five_witness :
    (qualifying v1_0_0
        ["1.1.0", "1.2.0", "1.3.0", "1.4.0", "1.5.0", "1.6.0"]).length > 5 ∧
      (getNewerVersions v1_0_0
        ["1.1.0", "1.2.0", "1.3.0", "1.4.0", "1.5.0", "1.6.0"]).1.length = 5 :=
  ⟨by decide,
    (getNewerVersions_last_five.1 v1_0_0
      ["1.1.0", "1.2.0", "1.3.0", "1.4.0", "1.5.0", "1.6.0"] (by decide)).2.2⟩

/-- C3: when at most 5 candidates qualify, `getNewerVersions` returns exactly
the original strings of the candidates that parse and are strictly greater
than the baseline, in input order: the result is the qualifying list, a
string is returned only if it is a candidate that parses to a version above
the baseline, and every such candidate is returned. Baseline `1.2.0` with
candidates `1.1.0`, `1.2.0`, `1.3.0` yields `1.3.0`. -/
theorem getNewerVersions_exact :
    (∀ (cur : Version) (tags : List String),
        (qualifying cur tags).length ≤ 5 →
          (getNewerVersions cur tags).1 =
              tags.filter (fun s =>
                match NewVersion s with
                | some tag => cur.LessThan tag
                | none => false) ∧
            ∀ s : String, s ∈ (getNewerVersions cur tags).1 ↔
              s ∈ tags ∧ ∃ tag, NewVersion s = some tag ∧ cur.LessThan tag = true) ∧
      NewVersion "1.2.0" = some v1_2_0 ∧
      getNewerVersions v1_2_0 ["1.1.0", "1.2.0", "1.3.0"] = (["1.3.0"], none) := by
  refine ⟨fun cur tags h => ?_, by decide, by decide⟩
  have hq : (getNewerVersions cur tags).1 = qualifying cur tags := by
    rw [getNewerVersions_fst, if_neg (by omega)]
  refine ⟨?_, fun s => ?_⟩
  · rw [hq]
    rfl
  · rw [hq]
    unfold qualifying
    rw [List.mem_filter]
    unfold qualifies
    cases hp : NewVersion s with
    | none => simp
    | some tag => simp

/-- C3 at baseline `1.2.0` with candidates `1.1.0`, `1.2.0`, `1.3.0`: one
candidate qualifies and `1.3.0` is returned. -/
theorem getNewerVersions_exact_witness :
    (qualifying v1_2_0 ["1.1.0", "1.2.0", "1.3.0"]).length ≤ 5 ∧
      ("1.3.0" ∈ (getNewerVersions v1_2_0 ["1.1.0", "1.2.0", "1.3.0"]).1 ↔
        "1.3.0" ∈ ["1.1.0", "1.2.0", "1.3.0"] ∧
          ∃ tag, NewVersion "1.3.0" = some tag ∧ v1_2_0.LessThan tag = true) :=
  ⟨by decide,
    (getNewerVersions_exact.1 v1_2_0 ["1.1.0", "1.2.0", "1.3.0"] (by decide)).2
      "1.3.0"⟩

/-- C4, as stated, fails: with baseline `1.0.0` and candidates `3.0.0`,
`2.0.0` the selector returns `3.0.0`, `2.0.0`, where the first version is
greater than the one that follows it. -/
theorem getNewerVersions_not_ascending :
    NewVersion "1.0.0" = some v1_0_0 ∧
      (getNewerVersions v1_0_0 ["3.0.0", "2.0.0"]).1 = ["3.0.0", "2.0.0"] ∧
      versionGreater "3.0.0" "2.0.0" = true ∧
      ¬ ascending (getNewerVersions v1_0_0 ["3.0.0", "2.0.0"]).1 := by
  refine ⟨by decide, by decide, by decide, ?_⟩
  have hr : (getNewerVersions v1_0_0 ["3.0.0", "2.0.0"]).1 = ["3.0.0", "2.0.0"] := by
    decide
  rw [hr]
  unfold ascending
  rw [List.chain'_pair]
  decide

/-- C4, amended: the list returned by `getNewerVersions` is in input order:
it is the list of the qualifying candidates, taken in the order they occur in
the input, without all but its last 5 entries, and so an order-preserving
subsequence of the input. It is in ascending version order whenever the
qualifying candidates occur in ascending version order in the input. -/
theorem getNewerVersions_ascending_of_input (cur : Version)
    (tags : List String) :
    (getNewerVersions cur tags).1 =
        (tags.filter (qualifies cur)).drop
          ((tags.filter (qualifies cur)).length - 5) ∧
      (getNewerVersions cur tags).1.Sublist tags ∧
      (ascending (qualifying cur tags) →
        ascending (getNewerVersions cur tags).1) := by
  have heq : (getNewerVersions cur tags).1 =
      (qualifying cur tags).drop ((qualifying cur tags).length - 5) := by
    rw [getNewerVersions_fst]
    split
    · rfl
    · have h0 : (qualifying cur tags).length - 5 = 0 := by omega
      rw [h0, List.drop_zero]
  refine ⟨heq, ?_, fun h => ?_⟩
  · rw [heq]
    exact (List.drop_sublist _ _).trans (List.filter_sublist tags)
  · rw [heq]
    exact List.Chain'.drop h _

/-- C4, amended, at baseline `1.0.0` with candidates `1.1.0`, `1.3.0`, `0.9.0`,
`1.3.0`: the result is the three qualifying candidates in input order, and
since they are ascending so is the result. -/
theorem getNewerVersions_ascending_of_input_witness :
    ascending (qualifying v1_0_0 ["1.1.0", "1.3.0", "0.9.0", "1.3.0"]) ∧
      (getNewerVersions v1_0_0 ["1.1.0", "1.3.0", "0.9.0", "1.3.0"]).1 =
        ["1.1.0", "1.3.0", "1.3.0"] ∧
      (getNewerVersions v1_0_0 ["1.1.0", "1.3.0", "0.9.0", "1.3.0"]).1.Sublist
        ["1.1.0", "1.3.0", "0.9.0", "1.3.0"] ∧
      ascending (getNewerVersions v1_0_0 ["1.1.0", "1.3.0", "0.9.0", "1.3.0"]).1 := by
  have hq : qualifying v1_0_0 ["1.1.0", "1.3.0", "0.9.0", "1.3.0"] =
      ["1.1.0", "1.3.0", "1.3.0"] := by decide
  have ha : ascending (qualifying v1_0_0 ["1.1.0", "1.3.0", "0.9.0", "1.3.0"]) := by
    rw [hq]
    unfold ascending
    simp only [List.chain'_cons, List.chain'_singleton, and_true]
    decide
  have h := getNewerVersions_ascending_of_input v1_0_0
    ["1.1.0", "1.3.0", "0.9.0", "1.3.0"]
  exact ⟨ha, h.1.trans (by decide), h.2.1, h.2.2 ha⟩

/-- C5, as stated, fails: with baseline `1.0.0` and candidates `9.0.0`,
`1.1.0`, `1.2.0`, `1.3.0`, `1.4.0`, `1.5.0`, six candidates qualify, the
qualifying `9.0.0` is left out, and its version is greater than the returned
`1.1.0`. -/
theorem getNewerVersions_not_greatest :
    (qualifying v1_0_0
        ["9.0.0", "1.1.0", "1.2.0", "1.3.0", "1.4.0", "1.5.0"]).length > 5 ∧
      (getNewerVersions v1_0_0
          ["9.0.0", "1.1.0", "1.2.0", "1.3.0", "1.4.0", "1.5.0"]).1 =
        ["1.1.0", "1.2.0", "1.3.0", "1.4.0", "1.5.0"] ∧
      qualifies v1_0_0 "9.0.0" = true ∧
      "9.0.0" ∉ (getNewerVersions v1_0_0
          ["9.0.0", "1.1.0", "1.2.0", "1.3.0", "1.4.0", "1.5.0"]).1 ∧
      versionGreater "9.0.0" "1.1.0" = true := by
  refine ⟨by decide, by decide, by decide, by decide, by decide⟩

/-- C5, amended: when more than 5 candidates qualify, the 5 returned tags are
the last 5 qualifying candidates in input order; when moreover no qualifying
candidate has a version greater than a qualifying candidate that occurs later
in the input, no left-out qualifying candidate has a version greater than a
returned one. -/
theorem getNewerVersions_greatest_of_input (cur : Version)
    (tags : List String) (hn : (qualifying cur tags).length > 5) :
    ∃ dropped : List String,
      qualifying cur tags = dropped ++ (getNewerVersions cur tags).1 ∧
        (getNewerVersions cur tags).1.length = 5 ∧
        ((qualifying cur tags).Pairwise (fun a b => versionGreater a b = false) →
          ∀ a ∈ dropped, ∀ b ∈ (getNewerVersions cur tags).1,
            versionGreater a b = false) := by
  refine ⟨(qualifying cur tags).take ((qualifying cur tags).length - 5), ?_, ?_, ?_⟩
  · rw [getNewerVersions_fst, if_pos hn, List.take_append_drop]
  · rw [getNewerVersions_fst, if_pos hn, List.length_drop]
    omega
  · intro hp a ha b hb
    rw [getNewerVersions_fst, if_pos hn] at hb
    rw [← List.take_append_drop ((qualifying cur tags).length - 5)
      (qualifying cur tags)] at hp
    exact (List.pairwise_append.1 hp).2.2 a ha b hb

/-- C5, amended, at baseline `1.0.0` with the ascending candidates `1.1.0` to
`1.6.0`: the left-out `1.1.0` is not greater than any returned tag. -/
theorem getNewerVersions_greatest_of_input_witness :
    (qualifying v1_0_0
        ["1.1.0", "1.2.0", "1.3.0", "1.4.0", "1.5.0", "1.6.0"]).length > 5 ∧
      ∃ dropped : List String,
        qualifying v1_0_0 ["1.1.0", "1.2.0", "1.3.0", "1.4.0", "1.5.0", "1.6.0"] =
            dropped ++ (getNewerVersions v1_0_0
              ["1.1.0", "1.2.0", "1.3.0", "1.4.0", "1.5.0", "1.6.0"]).1 ∧
          (getNewerVersions v1_0_0
            ["1.1.0", "1.2.0", "1.3.0", "1.4.0", "1.5.0", "1.6.0"]).1.length = 5 ∧
          ∀ a ∈ dropped, ∀ b ∈ (getNewerVersions v1_0_0
              ["1.1.0", "1.2.0", "1.3.0", "1.4.0", "1.5.0", "1.6.0"]).1,
            versionGreater a b = false := by
  have hq : qualifying v1_0_0 ["1.1.0", "1.2.0", "1.3.0", "1.4.0", "1.5.0", "1.6.0"] =
      ["1.1.0", "1.2.0", "1.3.0", "1.4.0", "1.5.0", "1.6.0"] := by decide
  have hp : (qualifying v1_0_0
      ["1.1.0", "1.2.0", "1.3.0", "1.4.0", "1.5.0", "1.6.0"]).Pairwise
      (fun a b => versionGreater a b = false) := by
    rw [hq]
    simp only [List.pairwise_cons, List.mem_cons, List.mem_singleton,
      forall_eq_or_imp, forall_eq, List.not_mem_nil, false_imp_iff,
      implies_true, List.Pairwise.nil, and_true]
    decide
  obtain ⟨dropped, h1, h2, h3⟩ := getNewerVersions_greatest_of_input v1_0_0
    ["1.1.0", "1.2.0", "1.3.0", "1.4.0", "1.5.0", "1.6.0"] (by decide)
  exact ⟨by decide, dropped, h1, h2, h3 hp⟩

/-- C6: the list returned by `getNewerVersions` has at most 5 entries, for a
candidate sequence of any length, and exactly 5 whenever at least 5
candidates qualify. -/
theorem getNewerVersions_length (cur : Version) (tags : List String) :
    (getNewerVersions cur tags).1.length ≤ 5 ∧
      (5 ≤ (qualifying cur tags).length →
        (getNewerVersions cur tags).1.length = 5) := by
  rw [getNewerVersions_fst]
  split
  · rw [List.length_drop]
    omega
  · omega

/-- C6 at baseline `1.0.0` with seven qualifying candidates: five are
returned. -/
theorem getNewerVersions_length_witness :
    5 ≤ (qualifying v1_0_0
        ["1.1.0", "1.2.0", "1.3.0", "1.4.0", "1.5.0", "1.6.0", "1.7.0"]).length ∧
      (getNewerVersions v1_0_0
        ["1.1.0", "1.2.0", "1.3.0", "1.4.0", "1.5.0", "1.6.0", "1.7.0"]).1.length = 5 :=
  ⟨by decide,
    (getNewerVersions_length v1_0_0
      ["1.1.0", "1.2.0", "1.3.0", "1.4.0", "1.5.0", "1.6.0", "1.7.0"]).2 (by decide)⟩

/-! ## Lemmas on the loop of `runCheckCommand` -/

theorem getNewerVersions_snd (cur : Version) (tags : List String) :
    (getNewerVersions cur tags).2 = none := rfl

theorem forBody_not_sourced (env : Env) (reg : Registry) (st : RunState)
    (image : Image) (h : image.SourceRegistry ≠ "docker.io") :
    forBody env reg st image =
      (st.Printf (.notSourced (env.Source image)), none) := by
  simp [forBody, h]

theorem forBody_not_parsed (env : Env) (reg : Registry) (st : RunState)
    (image : Image) (h : image.SourceRegistry = "docker.io")
    (hv : NewVersion image.Version = none) :
    forBody env reg st image =
      (st.Printf (.versionNotParsed (env.Source image)), none) := by
  simp [forBody, h, hv]

/-- The loop body for an image that reaches the tag fetch, with the
normalized repository written as `queriedRepository`. -/
theorem forBody_eligible (env : Env) (reg : Registry) (st : RunState)
    (image : Image) (v : Version)
    (h : image.SourceRegistry = "docker.io")
    (hv : NewVersion image.Version = some v) :
    forBody env reg st image =
      match reg.Tags (queriedRepository image) with
      | .error err =>
        (st.fetch (queriedRepository image), some (.wrap "fetch tags" err))
      | .ok imageTags =>
        if (getNewerVersions v (filterTags imageTags)).1.length = 0 then
          ((st.fetch (queriedRepository image)).Printf
            (.upToDate (env.Source
              { image with Repository := queriedRepository image })), none)
        else
          ((st.fetch (queriedRepository image)).Printf
            (.newVersions (env.Source
                { image with Repository := queriedRepository image })
              (getNewerVersions v (filterTags imageTags)).1), none) := by
  unfold forBody
  have hne : (image.SourceRegistry != "docker.io") = false := by simp [h]
  simp only [hne, hv]
  by_cases hc : containsChar image.Repository '/' = true
  · have hq : queriedRepository image = image.Repository := by
      simp [queriedRepository, hc]
    simp only [hq, hc, Bool.not_true, Bool.false_eq_true, if_false]
    cases reg.Tags image.Repository <;> rfl
  · have hq : queriedRepository image = "library/" ++ image.Repository := by
      simp [queriedRepository, hc]
    have hc2 : containsChar image.Repository '/' = false := by simpa using hc
    simp only [hq, hc2, Bool.not_false, if_true]
    cases reg.Tags ("library/" ++ image.Repository) <;> rfl

theorem forBody_fetch_error (env : Env) (reg : Registry) (st : RunState)
    (image : Image) (v : Version) (e : GoError)
    (h : image.SourceRegistry = "docker.io")
    (hv : NewVersion image.Version = some v)
    (ht : reg.Tags (queriedRepository image) = .error e) :
    forBody env reg st image =
      (st.fetch (queriedRepository image), some (.wrap "fetch tags" e)) := by
  rw [forBody_eligible env reg st image v h hv, ht]

theorem forBody_fetch_ok (env : Env) (reg : Registry) (st : RunState)
    (image : Image) (v : Version) (tags : List String)
    (h : image.SourceRegistry = "docker.io")
    (hv : NewVersion image.Version = some v)
    (ht : reg.Tags (queriedRepository image) = .ok tags) :
    ∃ line, forBody env reg st image =
      ((st.fetch (queriedRepository image)).Printf line, none) := by
  rw [forBody_eligible env reg st image v h hv, ht]
  simp only
  split
  · exact ⟨_, rfl⟩
  · exact ⟨_, rfl⟩

theorem forBody_error_iff (env : Env) (reg : Registry) (st : RunState)
    (image : Image) :
    (forBody env reg st image).2 ≠ none ↔
      image.SourceRegistry = "docker.io" ∧
        (∃ v, NewVersion image.Version = some v) ∧
        ∃ e, reg.Tags (queriedRepository image) = .error e := by
  by_cases h : image.SourceRegistry = "docker.io"
  · cases hv : NewVersion image.Version with
    | none => simp [forBody_not_parsed env reg st image h hv]
    | some v =>
      cases ht : reg.Tags (queriedRepository image) with
      | error e => simp [forBody_fetch_error env reg st image v e h hv ht, h]
      | ok tags =>
        obtain ⟨line, hl⟩ := forBody_fetch_ok env reg st image v tags h hv ht
        simp [hl]
  · simp [forBody_not_sourced env reg st image h, h]

theorem forBody_error_form (env : Env) (reg : Registry) (st : RunState)
    (image : Image) (err : GoError)
    (herr : (forBody env reg st image).2 = some err) :
    ∃ e, err = .wrap "fetch tags" e := by
  by_cases h : image.SourceRegistry = "docker.io"
  · cases hv : NewVersion image.Version with
    | none => simp [forBody_not_parsed env reg st image h hv] at herr
    | some v =>
      cases ht : reg.Tags (queriedRepository image) with
      | error e =>
        rw [forBody_fetch_error env reg st image v e h hv ht] at herr
        exact ⟨e, (Option.some.inj herr).symm⟩
      | ok tags =>
        obtain ⟨line, hl⟩ := forBody_fetch_ok env reg st image v tags h hv ht
        simp [hl] at herr
  · simp [forBody_not_sourced env reg st image h] at herr

theorem forImages_cons_next (env : Env) (reg : Registry) (image : Image)
    (rest : List Image) (st st1 : RunState)
    (h : forBody env reg st image = (st1, none)) :
    forImages env reg (image :: rest) st = forImages env reg rest st1 := by
  simp [forImages, h]

theorem forImages_cons_abort (env : Env) (reg : Registry) (image : Image)
    (rest : List Image) (st st1 : RunState) (err : GoError)
    (h : forBody env reg st image = (st1, some err)) :
    forImages env reg (image :: rest) st = (st1, some err) := by
  simp [forImages, h]

theorem forImages_append (env : Env) (reg : Registry) (pre post : List Image)
    (st st1 : RunState) (h : forImages env reg pre st = (st1, none)) :
    forImages env reg (pre ++ post) st = forImages env reg post st1 := by
  induction pre generalizing st with
  | nil =>
    simp only [forImages, Prod.mk.injEq, and_true] at h
    subst h
    rfl
  | cons image rest ih =>
    rcases hb : forBody env reg st image with ⟨st2, _ | err⟩
    · rw [forImages_cons_next env reg image rest st st2 hb] at h
      rw [List.cons_append, forImages_cons_next env reg image _ st st2 hb]
      exact ih st2 h
    · rw [forImages_cons_abort env reg image rest st st2 err hb] at h
      simp at h

theorem forImages_error_form (env : Env) (reg : Registry) (images : List Image)
    (st : RunState) (err : GoError)
    (herr : (forImages env reg images st).2 = some err) :
    ∃ e, err = .wrap "fetch tags" e := by
  induction images generalizing st with
  | nil => simp [forImages] at herr
  | cons image rest ih =>
    rcases hb : forBody env reg st image with ⟨st2, _ | err2⟩
    · rw [forImages_cons_next env reg image rest st st2 hb] at herr
      exact ih st2 herr
    · rw [forImages_cons_abort env reg image rest st st2 err2 hb] at herr
      have h2 : (forBody env reg st image).2 = some err := by
        rw [hb]
        exact herr
      exact forBody_error_form env reg st image err h2

theorem forImages_error_iff (env : Env) (reg : Registry) (images : List Image)
    (st : RunState) :
    (forImages env reg images st).2 ≠ none ↔
      ∃ image ∈ images, image.SourceRegistry = "docker.io" ∧
        (∃ v, NewVersion image.Version = some v) ∧
        ∃ e, reg.Tags (queriedRepository image) = .error e := by
  induction images generalizing st with
  | nil => simp [forImages]
  | cons image rest ih =>
    have hbody := forBody_error_iff env reg st image
    rcases hb : forBody env reg st image with ⟨st2, _ | err2⟩
    · rw [forImages_cons_next env reg image rest st st2 hb, ih st2]
      rw [hb] at hbody
      simp only [ne_eq, not_true_eq_false, false_iff] at hbody
      simp only [List.mem_cons, exists_eq_or_imp, hbody, false_or]
    · rw [forImages_cons_abort env reg image rest st st2 err2 hb]
      rw [hb] at hbody
      simp only [ne_eq, reduceCtorEq, not_false_eq_true, true_iff] at hbody
      simp only [ne_eq, reduceCtorEq, not_false_eq_true, List.mem_cons,
        exists_eq_or_imp, true_iff]
      exact Or.inl hbody

/-! ## Error handling -/

/-- C7: `getNewerVersions` never reports an error: the returned error is
`nil` for every baseline and candidate sequence, and unparsable candidates
are skipped silently, so the result is the result for the sequence with the
unparsable candidates removed. Hence `runCheckCommand` never returns the
"getting newer version" error. -/
theorem getNewerVersions_never_errors :
    (∀ (cur : Version) (tags : List String),
        (getNewerVersions cur tags).2 = none ∧
          getNewerVersions cur tags =
            getNewerVersions cur
              (tags.filter (fun s => (NewVersion s).isSome))) ∧
      ∀ (env : Env) (e : GoError),
        (runCheckCommand env).2 ≠ some (.wrap "getting newer version" e) := by
  refine ⟨fun cur tags => ⟨rfl, ?_⟩, fun env e h => ?_⟩
  · have hq : qualifying cur (tags.filter (fun s => (NewVersion s).isSome)) =
        qualifying cur tags := by
      unfold qualifying
      rw [List.filter_filter]
      congr 1
      funext s
      unfold qualifies
      cases NewVersion s <;> simp
    apply Prod.ext
    · rw [getNewerVersions_fst, getNewerVersions_fst, hq]
    · rfl
  · unfold runCheckCommand at h
    split at h
    · simp only [Option.some.injEq, GoError.wrap.injEq] at h
      exact absurd h.1 (by decide)
    · split at h
      · simp only [Option.some.injEq, GoError.wrap.injEq] at h
        exact absurd h.1 (by decide)
      · obtain ⟨e2, he2⟩ := forImages_error_form env _ _ _ _ h
        simp only [GoError.wrap.injEq] at he2
        exact absurd he2.1 (by decide)

theorem forImages_source (m1 m2 : Except GoError Manifest) (env : Env)
    (reg : Registry) (images : List Image) (st : RunState) :
    forImages { env with GetManifest := m2 } reg images st =
      forImages { env with GetManifest := m1 } reg images st := by
  induction images generalizing st with
  | nil => rfl
  | cons image rest ih =>
    have hb : forBody { env with GetManifest := m2 } reg st image =
        forBody { env with GetManifest := m1 } reg st image := rfl
    unfold forImages
    rw [hb]
    rcases forBody { env with GetManifest := m1 } reg st image with ⟨st2, _ | err⟩
    · exact ih st2
    · rfl

theorem runCheckCommand_eq_forImages (env : Env) (reg : Registry)
    (images : List Image) (hreg : env.registryNew = .ok reg)
    (hman : env.GetManifest = .ok { Images := images }) :
    runCheckCommand env = forImages env reg images { logs := [], fetches := [] } := by
  simp [runCheckCommand, hreg, hman]

theorem runCheckCommand_on_images (env : Env) (reg : Registry)
    (images : List Image) (hreg : env.registryNew = .ok reg) :
    runCheckCommand { env with GetManifest := .ok { Images := images } } =
      forImages env reg images { logs := [], fetches := [] } := by
  rw [runCheckCommand_eq_forImages
    { env with GetManifest := .ok { Images := images } } reg images hreg rfl]
  exact forImages_source env.GetManifest _ env reg images _

/-- C8: when the tag fetch fails for an image that the run reaches, the run
aborts there: it returns the fetch error wrapped with the context
"fetch tags", its log holds exactly the lines written for the earlier images
(no line for the failing image or a later one), and the failing fetch is the
last one issued, whatever images follow. -/
theorem runCheckCommand_fetch_error_aborts (env : Env) (reg : Registry)
    (pre post : List Image) (image : Image) (st : RunState) (e : GoError)
    (hreg : env.registryNew = .ok reg)
    (hman : env.GetManifest = .ok { Images := pre ++ image :: post })
    (hpre : runCheckCommand { env with GetManifest := .ok { Images := pre } } =
      (st, none))
    (hsrc : image.SourceRegistry = "docker.io")
    (hver : (NewVersion image.Version).isSome = true)
    (hfetch : reg.Tags (queriedRepository image) = .error e) :
    runCheckCommand env =
      ({ logs := st.logs, fetches := st.fetches ++ [queriedRepository image] },
        some (.wrap "fetch tags" e)) := by
  rw [runCheckCommand_on_images env reg pre hreg] at hpre
  rw [runCheckCommand_eq_forImages env reg _ hreg hman,
    forImages_append env reg pre (image :: post) _ st hpre]
  obtain ⟨v, hv⟩ := Option.isSome_iff_exists.1 hver
  exact forImages_cons_abort env reg image post st _ _
    (forBody_fetch_error env reg st image v e hsrc hv hfetch)

/-- C8 on a manifest of four images whose third image is `redis`, unknown
to the sample registry: the run stops there with two lines logged and two
fetches issued; the fourth image leaves no trace. -/
theorem runCheckCommand_fetch_error_aborts_witness :
    runCheckCommand (sampleEnv
        [{ SourceRegistry := "ghcr.io", Repository := "a/b", Version := "1.0" },
         { SourceRegistry := "docker.io", Repository := "nginx", Version := "1.19.0" },
         { SourceRegistry := "docker.io", Repository := "redis", Version := "6.0" },
         { SourceRegistry := "docker.io", Repository := "nginx", Version := "1.20.0" }]) =
      ({ logs := [.notSourced "ghcr.io/a/b:1.0",
                  .newVersions "docker.io/library/nginx:1.19.0" ["1.20.0"]],
         fetches := ["library/nginx", "library/redis"] },
        some (.wrap "fetch tags" (.mk "not found"))) :=
  runCheckCommand_fetch_error_aborts
    (sampleEnv
      [{ SourceRegistry := "ghcr.io", Repository := "a/b", Version := "1.0" },
       { SourceRegistry := "docker.io", Repository := "nginx", Version := "1.19.0" },
       { SourceRegistry := "docker.io", Repository := "redis", Version := "6.0" },
       { SourceRegistry := "docker.io", Repository := "nginx", Version := "1.20.0" }])
    sampleRegistry
    [{ SourceRegistry := "ghcr.io", Repository := "a/b", Version := "1.0" },
     { SourceRegistry := "docker.io", Repository := "nginx", Version := "1.19.0" }]
    [{ SourceRegistry := "docker.io", Repository := "nginx", Version := "1.20.0" }]
    { SourceRegistry := "docker.io", Repository := "redis", Version := "6.0" }
    { logs := [.notSourced "ghcr.io/a/b:1.0",
               .newVersions "docker.io/library/nginx:1.19.0" ["1.20.0"]],
      fetches := ["library/nginx"] }
    (.mk "not found") rfl rfl (by decide) rfl (by decide) rfl

/-- C9: `runCheckCommand` returns an error if and only if the registry client
construction fails, the manifest load fails, or the tag fetch fails for an
image of the manifest that is sourced from docker.io and whose pinned version
parses; otherwise it returns `nil`, whatever images were skipped. -/
theorem runCheckCommand_error_iff (env : Env) :
    (runCheckCommand env).2 ≠ none ↔
      (∃ e, env.registryNew = .error e) ∨
        (∃ e, env.GetManifest = .error e) ∨
        ∃ reg manifest, env.registryNew = .ok reg ∧
          env.GetManifest = .ok manifest ∧
          ∃ image ∈ manifest.Images, image.SourceRegistry = "docker.io" ∧
            (∃ v, NewVersion image.Version = some v) ∧
            ∃ e, reg.Tags (queriedRepository image) = .error e := by
  cases hreg : env.registryNew with
  | error e => simp [runCheckCommand, hreg]
  | ok reg =>
    cases hman : env.GetManifest with
    | error e => simp [runCheckCommand, hreg, hman]
    | ok manifest =>
      rw [runCheckCommand_eq_forImages env reg manifest.Images hreg hman,
        forImages_error_iff]
      simp

/-- C10: an image whose source registry is not `docker.io` is skipped: the
loop body logs exactly one skip notice for it, issues no tag fetch and
returns no error, and the run continues with the images that follow it. -/
theorem runCheckCommand_skips_other_registry (env : Env) (reg : Registry)
    (pre post : List Image) (image : Image) (st : RunState)
    (hreg : env.registryNew = .ok reg)
    (hman : env.GetManifest = .ok { Images := pre ++ image :: post })
    (hpre : runCheckCommand { env with GetManifest := .ok { Images := pre } } =
      (st, none))
    (hsrc : image.SourceRegistry ≠ "docker.io") :
    forBody env reg st image =
        ({ logs := st.logs ++ [.notSourced (env.Source image)],
           fetches := st.fetches }, none) ∧
      runCheckCommand env =
        forImages env reg post
          { logs := st.logs ++ [.notSourced (env.Source image)],
            fetches := st.fetches } := by
  have hb := forBody_not_sourced env reg st image hsrc
  refine ⟨hb, ?_⟩
  rw [runCheckCommand_on_images env reg pre hreg] at hpre
  rw [runCheckCommand_eq_forImages env reg _ hreg hman,
    forImages_append env reg pre (image :: post) _ st hpre]
  exact forImages_cons_next env reg image post st _ hb

/-- C10 on a manifest whose second image is hosted on `ghcr.io`: it gets one
skip notice and no fetch, and the third image is still checked. -/
theorem runCheckCommand_skips_other_registry_witness :
    runCheckCommand (sampleEnv
        [{ SourceRegistry := "docker.io", Repository := "nginx", Version := "1.20.0" },
         { SourceRegistry := "ghcr.io", Repository := "a/b", Version := "1.0" },
         { SourceRegistry := "docker.io", Repository := "nginx", Version := "1.19.0" }]) =
      ({ logs := [.upToDate "docker.io/library/nginx:1.20.0",
                  .notSourced "ghcr.io/a/b:1.0",
                  .newVersions "docker.io/library/nginx:1.19.0" ["1.20.0"]],
         fetches := ["library/nginx", "library/nginx"] }, none) :=
  (runCheckCommand_skips_other_registry
    (sampleEnv
      [{ SourceRegistry := "docker.io", Repository := "nginx", Version := "1.20.0" },
       { SourceRegistry := "ghcr.io", Repository := "a/b", Version := "1.0" },
       { SourceRegistry := "docker.io", Repository := "nginx", Version := "1.19.0" }])
    sampleRegistry
    [{ SourceRegistry := "docker.io", Repository := "nginx", Version := "1.20.0" }]
    [{ SourceRegistry := "docker.io", Repository := "nginx", Version := "1.19.0" }]
    { SourceRegistry := "ghcr.io", Repository := "a/b", Version := "1.0" }
    { logs := [.upToDate "docker.io/library/nginx:1.20.0"],
      fetches := ["library/nginx"] }
    rfl rfl (by decide) (by decide)).2.trans (by decide)

/-! ## The loop body, image by image -/

theorem forBody_fetches (env : Env) (reg : Registry) (st : RunState)
    (image : Image) (v : Version)
    (h : image.SourceRegistry = "docker.io")
    (hv : NewVersion image.Version = some v) :
    (forBody env reg st image).1.fetches =
      st.fetches ++ [queriedRepository image] := by
  rw [forBody_eligible env reg st image v h hv]
  cases reg.Tags (queriedRepository image) with
  | error e => rfl
  | ok tags =>
    simp only
    split <;> rfl

/-- C11: for an image that reaches the tag fetch, the repository name passed
to the registry is `library/` followed by the image's repository when the
repository contains no `/`, and the repository unchanged when it contains
one; the registry is consulted under that name only. -/
theorem forBody_queries_library_namespace (env : Env) (reg : Registry)
    (st : RunState) (image : Image)
    (hsrc : image.SourceRegistry = "docker.io")
    (hver : (NewVersion image.Version).isSome = true) :
    ('/' ∉ image.Repository.toList →
        (forBody env reg st image).1.fetches =
          st.fetches ++ ["library/" ++ image.Repository]) ∧
      ('/' ∈ image.Repository.toList →
        (forBody env reg st image).1.fetches =
          st.fetches ++ [image.Repository]) ∧
      ∀ other : Registry,
        other.Tags (queriedRepository image) =
            reg.Tags (queriedRepository image) →
          forBody env other st image = forBody env reg st image := by
  obtain ⟨v, hv⟩ := Option.isSome_iff_exists.1 hver
  have hf := forBody_fetches env reg st image v hsrc hv
  refine ⟨fun hno => ?_, fun hyes => ?_, fun other ho => ?_⟩
  · have hc : containsChar image.Repository '/' = false := by
      simpa [containsChar] using hno
    rw [hf]
    simp [queriedRepository, hc]
  · have hc : containsChar image.Repository '/' = true := by
      simpa [containsChar] using hyes
    rw [hf]
    simp [queriedRepository, hc]
  · rw [forBody_eligible env other st image v hsrc hv,
      forBody_eligible env reg st image v hsrc hv, ho]

/-- C11 for the repository `nginx`: it is queried as `library/nginx`. -/
theorem forBody_queries_library_namespace_witness :
    (forBody (sampleEnv []) sampleRegistry { logs := [], fetches := [] }
        nginxImage).1.fetches = ["library/nginx"] :=
  (forBody_queries_library_namespace (sampleEnv []) sampleRegistry
    { logs := [], fetches := [] } nginxImage rfl (by decide)).1 (by decide)

/-- C12: a docker.io image whose pinned version does not parse is skipped and
yields no error: the loop body logs exactly one skip notice for it, issues no
tag fetch and returns no error, and the run continues with the images that
follow it. -/
theorem runCheckCommand_skips_unparsable_version (env : Env) (reg : Registry)
    (pre post : List Image) (image : Image) (st : RunState)
    (hreg : env.registryNew = .ok reg)
    (hman : env.GetManifest = .ok { Images := pre ++ image :: post })
    (hpre : runCheckCommand { env with GetManifest := .ok { Images := pre } } =
      (st, none))
    (hsrc : image.SourceRegistry = "docker.io")
    (hver : NewVersion image.Version = none) :
    forBody env reg st image =
        ({ logs := st.logs ++ [.versionNotParsed (env.Source image)],
           fetches := st.fetches }, none) ∧
      runCheckCommand env =
        forImages env reg post
          { logs := st.logs ++ [.versionNotParsed (env.Source image)],
            fetches := st.fetches } := by
  have hb := forBody_not_parsed env reg st image hsrc hver
  refine ⟨hb, ?_⟩
  rw [runCheckCommand_on_images env reg pre hreg] at hpre
  rw [runCheckCommand_eq_forImages env reg _ hreg hman,
    forImages_append env reg pre (image :: post) _ st hpre]
  exact forImages_cons_next env reg image post st _ hb

/-- C12 on a manifest whose first image is pinned to `latest`: it gets one
skip notice and no fetch, and the second image is still checked. -/
theorem runCheckCommand_skips_unparsable_version_witness :
    runCheckCommand (sampleEnv [latestImage, nginxImage]) =
      ({ logs := [.versionNotParsed "docker.io/nginx:latest",
                  .newVersions "docker.io/library/nginx:1.19.0" ["1.20.0"]],
         fetches := ["library/nginx"] }, none) :=
  (runCheckCommand_skips_unparsable_version
    (sampleEnv [latestImage, nginxImage]) sampleRegistry [] [nginxImage]
    latestImage { logs := [], fetches := [] }
    rfl rfl (by decide) rfl (by decide)).2.trans (by decide)

/-- C13: for an image whose tag fetch succeeds, the loop body logs exactly
one report line and returns no error: the line is the up-to-date notice if
and only if `getNewerVersions` of the pinned version and the filtered tags is
empty, and otherwise it is the newer-versions notice with the image identity
and exactly that list. -/
theorem forBody_reports (env : Env) (reg : Registry) (st : RunState)
    (image : Image) (v : Version) (tags : List String)
    (hsrc : image.SourceRegistry = "docker.io")
    (hv : NewVersion image.Version = some v)
    (ht : reg.Tags (queriedRepository image) = .ok tags) :
    ∃ line : LogLine,
      forBody env reg st image =
          ({ logs := st.logs ++ [line],
             fetches := st.fetches ++ [queriedRepository image] }, none) ∧
        (line = .upToDate (env.Source (normalizedImage image)) ↔
          (getNewerVersions v (filterTags tags)).1 = []) ∧
        ((getNewerVersions v (filterTags tags)).1 ≠ [] →
          line = .newVersions (env.Source (normalizedImage image))
            (getNewerVersions v (filterTags tags)).1) := by
  rw [forBody_eligible env reg st image v hsrc hv, ht]
  simp only
  by_cases hl : (getNewerVersions v (filterTags tags)).1.length = 0
  · have he : (getNewerVersions v (filterTags tags)).1 = [] :=
      List.length_eq_zero.1 hl
    refine ⟨.upToDate (env.Source (normalizedImage image)), ?_, ?_, ?_⟩
    · rw [if_pos hl]
      rfl
    · simp [he]
    · intro hne
      exact absurd he hne
  · have he : (getNewerVersions v (filterTags tags)).1 ≠ [] :=
      fun h => hl (List.length_eq_zero.2 h)
    refine ⟨.newVersions (env.Source (normalizedImage image))
      (getNewerVersions v (filterTags tags)).1, ?_, ?_, ?_⟩
    · rw [if_neg hl]
      rfl
    · simp [he]
    · intro _
      rfl

/-- C13 for `nginx` pinned to `1.19.0` against the sample registry: the one
line logged is the newer-versions notice listing `1.20.0`. -/
theorem forBody_reports_witness :
    ∃ line : LogLine,
      forBody (sampleEnv []) sampleRegistry { logs := [], fetches := [] }
          nginxImage =
          ({ logs := [] ++ [line],
             fetches := [] ++ [queriedRepository nginxImage] }, none) ∧
        (line = .upToDate (sampleSource (normalizedImage nginxImage)) ↔
          (getNewerVersions v1_19_0
            (filterTags ["1.19.0", "1.20.0", "latest"])).1 = []) ∧
        ((getNewerVersions v1_19_0
            (filterTags ["1.19.0", "1.20.0", "latest"])).1 ≠ [] →
          line = .newVersions (sampleSource (normalizedImage nginxImage))
            (getNewerVersions v1_19_0
              (filterTags ["1.19.0", "1.20.0", "latest"])).1) :=
  forBody_reports (sampleEnv []) sampleRegistry { logs := [], fetches := [] }
    nginxImage v1_19_0 ["1.19.0", "1.20.0", "latest"] rfl (by decide) rfl

/-! ## The filter composed with the selector -/

theorem getNewerVersions_sublist (cur : Version) (tags : List String) :
    (getNewerVersions cur tags).1.Sublist tags := by
  rw [getNewerVersions_fst]
  split
  · exact (List.drop_sublist _ _).trans (List.filter_sublist tags)
  · exact List.filter_sublist tags

theorem mem_filterTags {s : String} {tags : List String}
    (h : s ∈ filterTags tags) : s ∈ tags ∧ releaseLike s := by
  unfold filterTags at h
  rw [filterTags_loop_eq, List.nil_append, List.mem_filter] at h
  refine ⟨h.1, ?_⟩
  simpa [containsChar, releaseLike] using h.2

theorem filterTags_sublist (tags : List String) :
    (filterTags tags).Sublist tags := by
  unfold filterTags
  rw [filterTags_loop_eq, List.nil_append]
  exact List.filter_sublist tags

/-- C14: every string that `getNewerVersions` returns for the filtered tags
is one of the raw tags and contains a `.` and no `-`, and the result is an
order-preserving subsequence of the raw tags; so `latest` and `1.0.0-rc1` are
never reported, whatever the baseline and the raw tags. -/
theorem getNewerVersions_filterTags_sound (cur : Version)
    (tags : List String) :
    (∀ s ∈ (getNewerVersions cur (filterTags tags)).1,
        s ∈ tags ∧ '.' ∈ s.toList ∧ '-' ∉ s.toList) ∧
      (getNewerVersions cur (filterTags tags)).1.Sublist tags ∧
      "latest" ∉ (getNewerVersions cur (filterTags tags)).1 ∧
      "1.0.0-rc1" ∉ (getNewerVersions cur (filterTags tags)).1 := by
  have hmem : ∀ s ∈ (getNewerVersions cur (filterTags tags)).1,
      s ∈ tags ∧ releaseLike s := fun s hs =>
    mem_filterTags ((getNewerVersions_sublist cur (filterTags tags)).subset hs)
  refine ⟨hmem, ?_, fun h => ?_, fun h => ?_⟩
  · exact (getNewerVersions_sublist cur (filterTags tags)).trans
      (filterTags_sublist tags)
  · exact absurd (hmem _ h).2 (by decide)
  · exact absurd (hmem _ h).2 (by decide)

/-! ## The trace of a run -/

theorem forBody_next_trace (env : Env) (reg : Registry) (st st1 : RunState)
    (image : Image) (h : forBody env reg st image = (st1, none)) :
    ∃ line, lineFor env image line ∧
      st1 = { logs := st.logs ++ [line],
              fetches := st.fetches ++
                (if reachesFetch image = true then [queriedRepository image]
                 else []) } := by
  by_cases hs : image.SourceRegistry = "docker.io"
  · cases hv : NewVersion image.Version with
    | none =>
      rw [forBody_not_parsed env reg st image hs hv] at h
      refine ⟨.versionNotParsed (env.Source image), Or.inr (Or.inl ⟨hs, hv, rfl⟩), ?_⟩
      rw [← (Prod.mk.inj h).1]
      simp [reachesFetch, hs, hv, RunState.Printf]
    | some v =>
      have hr : reachesFetch image = true := by simp [reachesFetch, hs, hv]
      cases ht : reg.Tags (queriedRepository image) with
      | error e =>
        rw [forBody_fetch_error env reg st image v e hs hv ht] at h
        simp at h
      | ok tags =>
        rw [forBody_eligible env reg st image v hs hv, ht] at h
        simp only at h
        split at h
        · refine ⟨.upToDate (env.Source (normalizedImage image)),
            Or.inr (Or.inr ⟨hr, Or.inl rfl⟩), ?_⟩
          rw [← (Prod.mk.inj h).1, if_pos hr]
          rfl
        · refine ⟨.newVersions (env.Source (normalizedImage image))
              (getNewerVersions v (filterTags tags)).1,
            Or.inr (Or.inr ⟨hr, Or.inr ⟨_, rfl⟩⟩), ?_⟩
          rw [← (Prod.mk.inj h).1, if_pos hr]
          rfl
  · rw [forBody_not_sourced env reg st image hs] at h
    refine ⟨.notSourced (env.Source image), Or.inl ⟨hs, rfl⟩, ?_⟩
    rw [← (Prod.mk.inj h).1]
    simp [reachesFetch, hs, RunState.Printf]

theorem forBody_abort_trace (env : Env) (reg : Registry) (st st1 : RunState)
    (image : Image) (err : GoError)
    (h : forBody env reg st image = (st1, some err)) :
    reachesFetch image = true ∧
      ∃ e, reg.Tags (queriedRepository image) = .error e ∧
        err = .wrap "fetch tags" e ∧
        st1 = { logs := st.logs,
                fetches := st.fetches ++ [queriedRepository image] } := by
  by_cases hs : image.SourceRegistry = "docker.io"
  · cases hv : NewVersion image.Version with
    | none =>
      rw [forBody_not_parsed env reg st image hs hv] at h
      simp at h
    | some v =>
      have hr : reachesFetch image = true := by simp [reachesFetch, hs, hv]
      cases ht : reg.Tags (queriedRepository image) with
      | error e =>
        rw [forBody_fetch_error env reg st image v e hs hv ht] at h
        obtain ⟨h1, h2⟩ := Prod.mk.inj h
        exact ⟨hr, e, rfl, (Option.some.inj h2).symm, h1.symm⟩
      | ok tags =>
        obtain ⟨line, hl⟩ := forBody_fetch_ok env reg st image v tags hs hv ht
        rw [hl] at h
        simp at h
  · rw [forBody_not_sourced env reg st image hs] at h
    simp at h

theorem forImages_success_trace (env : Env) (reg : Registry)
    (images : List Image) (st st1 : RunState)
    (h : forImages env reg images st = (st1, none)) :
    ∃ lines, List.Forall₂ (lineFor env) images lines ∧
      st1.logs = st.logs ++ lines ∧
      st1.fetches =
        st.fetches ++ (images.filter reachesFetch).map queriedRepository := by
  induction images generalizing st with
  | nil =>
    simp only [forImages, Prod.mk.injEq, and_true] at h
    subst h
    exact ⟨[], List.Forall₂.nil, by simp, by simp⟩
  | cons image rest ih =>
    rcases hb : forBody env reg st image with ⟨st2, _ | err⟩
    · rw [forImages_cons_next env reg image rest st st2 hb] at h
      obtain ⟨line, hline, hst2⟩ := forBody_next_trace env reg st st2 image hb
      obtain ⟨lines, hall, hlogs, hfetches⟩ := ih st2 h
      refine ⟨line :: lines, List.Forall₂.cons hline hall, ?_, ?_⟩
      · rw [hlogs, hst2]
        simp
      · rw [hfetches, hst2]
        by_cases hr : reachesFetch image = true
        · simp [hr, List.filter_cons]
        · simp [hr, List.filter_cons]
    · rw [forImages_cons_abort env reg image rest st st2 err hb] at h
      simp at h

theorem forImages_abort_trace (env : Env) (reg : Registry)
    (images : List Image) (st st1 : RunState) (err : GoError)
    (h : forImages env reg images st = (st1, some err)) :
    ∃ pre image post lines e, images = pre ++ image :: post ∧
      List.Forall₂ (lineFor env) pre lines ∧
      st1.logs = st.logs ++ lines ∧
      st1.fetches =
        st.fetches ++ (pre.filter reachesFetch).map queriedRepository ++
          [queriedRepository image] ∧
      reachesFetch image = true ∧
      reg.Tags (queriedRepository image) = .error e ∧
      err = .wrap "fetch tags" e := by
  induction images generalizing st with
  | nil => simp [forImages] at h
  | cons image rest ih =>
    rcases hb : forBody env reg st image with ⟨st2, _ | err2⟩
    · rw [forImages_cons_next env reg image rest st st2 hb] at h
      obtain ⟨line, hline, hst2⟩ := forBody_next_trace env reg st st2 image hb
      obtain ⟨pre, bad, post, lines, e, himg, hall, hlogs, hfetches, hr, ht, herr⟩ :=
        ih st2 h
      refine ⟨image :: pre, bad, post, line :: lines, e, ?_,
        List.Forall₂.cons hline hall, ?_, ?_, hr, ht, herr⟩
      · rw [himg]
        rfl
      · rw [hlogs, hst2]
        simp
      · rw [hfetches, hst2]
        by_cases hri : reachesFetch image = true
        · simp [hri, List.filter_cons]
        · simp [hri, List.filter_cons]
    · rw [forImages_cons_abort env reg image rest st st2 err2 hb] at h
      obtain ⟨h1, h2⟩ := Prod.mk.inj h
      obtain ⟨hr, e, ht, herr, hst⟩ := forBody_abort_trace env reg st st2 image err2 hb
      refine ⟨[], image, rest, [], e, rfl, List.Forall₂.nil, ?_, ?_, hr, ht, ?_⟩
      · rw [← h1, hst]
        simp
      · rw [← h1, hst]
        simp
      · rw [← Option.some.inj h2, herr]

/-- C15: when `runCheckCommand` returns `nil`, the logger has received exactly
one line per image of the manifest, in manifest order, each a line the run
writes for that image, and the tag fetches issued are, in manifest order,
those of exactly the images sourced from docker.io with a parsable pinned
version. When it returns a fetch error, the failing image is one that reaches
the fetch, and the lines logged are one per image before it, so their number
is the number of images that precede the failing one. -/
theorem runCheckCommand_trace (env : Env) :
    (∀ st : RunState, runCheckCommand env = (st, none) →
        ∃ reg manifest, env.registryNew = .ok reg ∧
          env.GetManifest = .ok manifest ∧
          List.Forall₂ (lineFor env) manifest.Images st.logs ∧
          st.logs.length = manifest.Images.length ∧
          st.fetches =
            (manifest.Images.filter reachesFetch).map queriedRepository) ∧
      ∀ (st : RunState) (e : GoError),
        runCheckCommand env = (st, some (.wrap "fetch tags" e)) →
          ∃ reg manifest pre image post, env.registryNew = .ok reg ∧
            env.GetManifest = .ok manifest ∧
            manifest.Images = pre ++ image :: post ∧
            reachesFetch image = true ∧
            reg.Tags (queriedRepository image) = .error e ∧
            List.Forall₂ (lineFor env) pre st.logs ∧
            st.logs.length = pre.length ∧
            st.fetches =
              (pre.filter reachesFetch).map queriedRepository ++
                [queriedRepository image] := by
  constructor
  · intro st h
    cases hreg : env.registryNew with
    | error e0 => simp [runCheckCommand, hreg] at h
    | ok reg =>
      cases hman : env.GetManifest with
      | error e0 => simp [runCheckCommand, hreg, hman] at h
      | ok manifest =>
        rw [runCheckCommand_eq_forImages env reg manifest.Images hreg hman] at h
        obtain ⟨lines, hall, hlogs, hfetches⟩ :=
          forImages_success_trace env reg manifest.Images _ st h
        simp only [List.nil_append] at hlogs hfetches
        rw [← hlogs] at hall
        exact ⟨reg, manifest, rfl, rfl, hall, hall.length_eq.symm, hfetches⟩
  · intro st e h
    cases hreg : env.registryNew with
    | error e0 =>
      simp only [runCheckCommand, hreg, Prod.mk.injEq, Option.some.injEq,
        GoError.wrap.injEq] at h
      exact absurd h.2.1 (by decide)
    | ok reg =>
      cases hman : env.GetManifest with
      | error e0 =>
        simp only [runCheckCommand, hreg, hman, Prod.mk.injEq, Option.some.injEq,
          GoError.wrap.injEq] at h
        exact absurd h.2.1 (by decide)
      | ok manifest =>
        rw [runCheckCommand_eq_forImages env reg manifest.Images hreg hman] at h
        obtain ⟨pre, image, post, lines, e2, himg, hall, hlogs, hfetches, hr, ht,
          herr⟩ := forImages_abort_trace env reg manifest.Images _ st _ h
        simp only [List.nil_append] at hlogs hfetches
        rw [← hlogs] at hall
        have he : e = e2 := (GoError.wrap.inj herr).2
        rw [← he] at ht
        exact ⟨reg, manifest, pre, image, post, rfl, rfl, himg, hr, ht, hall,
          hall.length_eq.symm, hfetches⟩

/-- C15 on two sample runs: a manifest of three images that completes with
three lines and one fetch, and a manifest of four images whose third fetch
fails after two lines. -/
theorem runCheckCommand_trace_witness :
    (∃ reg manifest,
        (sampleEnv [ghcrImage, nginxImage, latestImage]).registryNew = .ok reg ∧
          (sampleEnv [ghcrImage, nginxImage, latestImage]).GetManifest =
            .ok manifest ∧
          List.Forall₂ (lineFor (sampleEnv [ghcrImage, nginxImage, latestImage]))
            manifest.Images completedRun.logs ∧
          completedRun.logs.length = manifest.Images.length ∧
          completedRun.fetches =
            (manifest.Images.filter reachesFetch).map queriedRepository) ∧
      ∃ reg manifest pre image post,
        (sampleEnv [ghcrImage, nginxImage, redisImage, nginxImage]).registryNew =
            .ok reg ∧
          (sampleEnv [ghcrImage, nginxImage, redisImage, nginxImage]).GetManifest =
            .ok manifest ∧
          manifest.Images = pre ++ image :: post ∧
          reachesFetch image = true ∧
          reg.Tags (queriedRepository image) = .error (.mk "not found") ∧
          List.Forall₂
            (lineFor (sampleEnv [ghcrImage, nginxImage, redisImage, nginxImage]))
            pre abortedRun.logs ∧
          abortedRun.logs.length = pre.length ∧
          abortedRun.fetches =
            (pre.filter reachesFetch).map queriedRepository ++
              [queriedRepository image] :=
  ⟨(runCheckCommand_trace (sampleEnv [ghcrImage, nginxImage, latestImage])).1
      completedRun (by decide),
    (runCheckCommand_trace
      (sampleEnv [ghcrImage, nginxImage, redisImage, nginxImage])).2
      abortedRun (.mk "not found") (by decide)⟩

end Sinker
